import Mathlib

/-!
Verification of the rspleeter audio pipeline.

This file gives a shallow embedding of the pure algorithmic content of the
rspleeter sources and proves properties of it:

- `src/splitter.rs` (`split_pcm_audio`): segmentation of a canonical PCM
  buffer into overlapping windows, per-segment inference, and trimming of
  the results back into flat per-track buffers.
- `src/encode.rs` (`encode_pcm_data`, `init_encode_context`, `write_frame`):
  batching of a track into encoder-sized frames, presentation-timestamp
  bookkeeping, time-base selection and packet timestamp rescaling.
- `src/decode.rs` (`decode_resample_save`): the drain/flush control flow of
  the decode loop.

Machine integers (`usize`) are modelled as `Nat`; where Rust would panic
(slice out of bounds, integer underflow, division by zero) the model
returns `none`, so `Option` results encode panics, and external
collaborators (tensorflow session, resampler, encoder) are explicit
function parameters or small state machines.
-/

namespace Rspleeter

/-! ### Model of src/splitter.rs -/

/-- One segment of the splitter loop, as computed by the loop body of
`split_pcm_audio` (src/splitter.rs lines 116-134). `useful_start` is
relative to `process_start`. -/
structure Segment where
  process_start : Nat
  process_length : Nat
  useful_start : Nat
  useful_length : Nat
deriving DecidableEq

/-- The segment count computed in src/splitter.rs line 114:
`(input_samples_count_per_channel + (slice_length - 1)) / slice_length`. -/
def segment_count (n slice_length : Nat) : Nat :=
  (n + (slice_length - 1)) / slice_length

/-- The per-iteration bookkeeping of the loop in `split_pcm_audio`
(src/splitter.rs lines 116-134), for a file of `n` samples per channel. -/
def mkSegment (n slice_length extend_length count i : Nat) : Segment :=
  let current_offset := slice_length * i
  let extend_length_at_begin := if i = 0 then 0 else extend_length
  let extend_length_at_end := if i = count - 1 then 0 else extend_length
  let useful_start := extend_length_at_begin
  let useful_length := if i = count - 1 then n - current_offset else slice_length
  let process_start := current_offset - extend_length_at_begin
  let process_length :=
    min (useful_length + extend_length_at_begin + extend_length_at_end) (n - process_start)
  { process_start := process_start, process_length := process_length,
    useful_start := useful_start, useful_length := useful_length }

/-- All segments of a run, in loop order. -/
def segments (n slice_length extend_length : Nat) : List Segment :=
  (List.range (segment_count n slice_length)).map
    (mkSegment n slice_length extend_length (segment_count n slice_length))

/-- Rust slice indexing `&data[b..b+l]`: in bounds it yields the slice,
out of bounds it panics (modelled as `none`). -/
def sliceChecked {α : Type} (data : List α) (b l : Nat) : Option (List α) :=
  if b + l ≤ data.length then some ((data.drop b).take l) else none

/-- The trimming of one inference output tensor in src/splitter.rs lines
179-181: `&data.as_ref()[useful_start*nb_channels ..
useful_start*nb_channels + useful_length*nb_channels]`. -/
def trimOutput {α : Type} (seg : Segment) (nb_channels : Nat) (data : List α) :
    Option (List α) :=
  sliceChecked data (seg.useful_start * nb_channels) (seg.useful_length * nb_channels)

/-- One iteration of the segment loop of `split_pcm_audio`: extract the
process window from `samples`, run inference (`infer input_data j` is the
tensor fetched for output `j`), trim each output to its useful region and
append it to the corresponding track accumulator. -/
def processSegment {α : Type} (samples : List α) (nb_channels output_count : Nat)
    (infer : List α → Nat → List α) (acc : List (List α)) (seg : Segment) :
    Option (List (List α)) := do
  let input_data ← sliceChecked samples (seg.process_start * nb_channels)
    (seg.process_length * nb_channels)
  let trims ← (List.range output_count).mapM
    (fun j => trimOutput seg nb_channels (infer input_data j))
  some (List.zipWith (fun t u => t ++ u) acc trims)

/-- Model of `split_pcm_audio` (src/splitter.rs lines 93-186): the pure
segmentation / trimming / accumulation structure, with the tensorflow
session abstracted into `infer`. -/
def split_pcm_audio {α : Type} (samples : List α)
    (nb_channels sample_rate output_count : Nat)
    (infer : List α → Nat → List α) : Option (List (List α)) :=
  let slice_length := sample_rate * 30
  let extend_length := sample_rate * 5
  let n := samples.length / nb_channels
  (segments n slice_length extend_length).foldlM
    (processSegment samples nb_channels output_count infer)
    (List.replicate output_count [])

/-! ### Arithmetic facts about the segmentation -/

lemma segment_count_eq_ceilDiv (n slice : Nat) (hs : 0 < slice) :
    segment_count n slice = n ⌈/⌉ slice := by
  rw [Nat.ceilDiv_eq_add_pred_div, segment_count, Nat.add_sub_assoc hs]

lemma lt_segment_count_iff (n slice i : Nat) (hs : 0 < slice) :
    i < segment_count n slice ↔ slice * i < n := by
  rw [segment_count_eq_ceilDiv n slice hs]
  constructor
  · intro h
    by_contra hle
    exact absurd ((ceilDiv_le_iff_le_mul hs).mpr (Nat.le_of_not_lt hle)) (Nat.not_le_of_lt h)
  · intro h
    by_contra hle
    exact absurd ((ceilDiv_le_iff_le_mul hs).mp (Nat.le_of_not_lt hle)) (Nat.not_le_of_lt h)

lemma le_mul_segment_count (n slice : Nat) (hs : 0 < slice) :
    n ≤ slice * segment_count n slice := by
  rw [segment_count_eq_ceilDiv n slice hs]
  exact (ceilDiv_le_iff_le_mul hs).mp le_rfl

lemma mkSegment_useful_start (n slice ext count i : Nat) :
    (mkSegment n slice ext count i).useful_start = if i = 0 then 0 else ext := rfl

lemma mkSegment_useful_length (n slice ext count i : Nat) :
    (mkSegment n slice ext count i).useful_length =
      if i = count - 1 then n - slice * i else slice := rfl

lemma mkSegment_process_start (n slice ext count i : Nat) :
    (mkSegment n slice ext count i).process_start =
      slice * i - (if i = 0 then 0 else ext) := rfl

lemma mkSegment_process_length (n slice ext count i : Nat) :
    (mkSegment n slice ext count i).process_length =
      min ((if i = count - 1 then n - slice * i else slice) +
            (if i = 0 then 0 else ext) + (if i = count - 1 then 0 else ext))
          (n - (slice * i - (if i = 0 then 0 else ext))) := rfl

lemma seg_bounds (n slice ext i : Nat) (hs : 0 < slice) (hext : ext ≤ slice)
    (hi : i < segment_count n slice) :
    (mkSegment n slice ext (segment_count n slice) i).process_start +
        (mkSegment n slice ext (segment_count n slice) i).useful_start = slice * i ∧
    (mkSegment n slice ext (segment_count n slice) i).useful_start +
        (mkSegment n slice ext (segment_count n slice) i).useful_length ≤
      (mkSegment n slice ext (segment_count n slice) i).process_length ∧
    (mkSegment n slice ext (segment_count n slice) i).process_start +
        (mkSegment n slice ext (segment_count n slice) i).process_length ≤ n ∧
    slice * i + (mkSegment n slice ext (segment_count n slice) i).useful_length ≤ n := by
  have hco : slice * i < n := (lt_segment_count_iff n slice i hs).mp hi
  have hmul : slice * (i + 1) = slice * i + slice := by ring
  have hsucc : i ≠ segment_count n slice - 1 → slice * (i + 1) < n := fun h =>
    (lt_segment_count_iff n slice (i + 1) hs).mp (by omega)
  have hexti : i ≠ 0 → ext ≤ slice * i := fun h =>
    le_trans hext (Nat.le_mul_of_pos_right slice (by omega))
  rw [mkSegment_process_start, mkSegment_useful_start, mkSegment_useful_length,
      mkSegment_process_length]
  by_cases h0 : i = 0 <;> by_cases hl : i = segment_count n slice - 1
  · simp only [if_pos h0, if_pos hl]
    omega
  · have h2 := hsucc hl
    simp only [if_pos h0, if_neg hl]
    omega
  · have h3 := hexti h0
    simp only [if_neg h0, if_pos hl]
    omega
  · have h2 := hsucc hl
    have h3 := hexti h0
    simp only [if_neg h0, if_neg hl]
    omega

lemma useful_length_sum (n slice ext : Nat) (hs : 0 < slice) :
    ((segments n slice ext).map Segment.useful_length).sum = n := by
  unfold segments
  rw [List.map_map]
  rcases Nat.eq_zero_or_pos (segment_count n slice) with hc | hc
  · have hn := le_mul_segment_count n slice hs
    rw [hc] at hn ⊢
    simp only [List.range_zero, List.map_nil, List.sum_nil]
    omega
  · obtain ⟨m, hm⟩ : ∃ m, segment_count n slice = m + 1 :=
      ⟨segment_count n slice - 1, by omega⟩
    have hmlt : slice * m < n := (lt_segment_count_iff n slice m hs).mp (by omega)
    rw [hm]
    rw [show m + 1 = Nat.succ m from rfl, List.sum_range_succ]
    have hlast : (Segment.useful_length ∘ mkSegment n slice ext (m + 1)) m = n - slice * m := by
      simp only [Function.comp_apply, mkSegment_useful_length]
      rw [if_pos (by omega)]
    have hrest : (List.map (Segment.useful_length ∘ mkSegment n slice ext (m + 1))
        (List.range m)).sum = m * slice := by
      rw [List.map_congr_left (g := Function.const Nat slice) (fun a ha => by
        have ham : a < m := List.mem_range.mp ha
        simp only [Function.comp_apply, mkSegment_useful_length, Function.const_apply]
        rw [if_neg (by omega)])]
      rw [List.map_const, List.sum_replicate, smul_eq_mul, List.length_range]
    rw [hlast, hrest]
    have hcomm : m * slice = slice * m := Nat.mul_comm m slice
    omega

lemma partition_unique (n slice ext j : Nat) (hs : 0 < slice) (hj : j < n) :
    ∃! i, i < segment_count n slice ∧ slice * i ≤ j ∧
      j < slice * i + (mkSegment n slice ext (segment_count n slice) i).useful_length := by
  have hdm := Nat.div_add_mod j slice
  have hmod : j % slice < slice := Nat.mod_lt j hs
  refine ⟨j / slice, ⟨?_, ?_, ?_⟩, ?_⟩
  · rw [lt_segment_count_iff n slice _ hs]
    omega
  · omega
  · rw [mkSegment_useful_length]
    by_cases hl : j / slice = segment_count n slice - 1
    · rw [if_pos hl]
      omega
    · rw [if_neg hl]
      omega
  · rintro i2 ⟨hi2, hle, hlt⟩
    rw [mkSegment_useful_length] at hlt
    by_cases hl : i2 = segment_count n slice - 1
    · rw [if_pos hl] at hlt
      have hcm : i2 * slice = slice * i2 := Nat.mul_comm i2 slice
      have h1 : i2 ≤ j / slice := (Nat.le_div_iff_mul_le hs).mpr (by omega)
      have h2 : j / slice < segment_count n slice := by
        rw [lt_segment_count_iff n slice _ hs]
        omega
      omega
    · rw [if_neg hl] at hlt
      have hcm : i2 * slice = slice * i2 := Nat.mul_comm i2 slice
      have hcm2 : (i2 + 1) * slice = slice * i2 + slice := by ring
      exact (Nat.div_eq_of_lt_le (by omega) (by omega)).symm

/-- C1: for every input PCM with `n` samples per channel and positive
sample rate (slice_length = sample_rate*30, extend = sample_rate*5), the
segmenter computes `segment_count = ceil(n / slice_length)`, the useful
lengths of all segments sum to exactly `n`, and the useful regions
`[i*slice_length, i*slice_length + useful_length_i)` partition `[0, n)`
with no gap and no overlap: every `j < n` lies in the useful region of
exactly one segment (this covers `n = 0`, `n < slice_length` and `n`
divisible by `slice_length`). -/
theorem C1_segments_partition (n sample_rate : Nat) (hsr : 0 < sample_rate) :
    segment_count n (sample_rate * 30) = n ⌈/⌉ (sample_rate * 30) ∧
    ((segments n (sample_rate * 30) (sample_rate * 5)).map Segment.useful_length).sum = n ∧
    ∀ j, j < n → ∃! i, i < segment_count n (sample_rate * 30) ∧
      (sample_rate * 30) * i ≤ j ∧
      j < (sample_rate * 30) * i + (mkSegment n (sample_rate * 30) (sample_rate * 5)
          (segment_count n (sample_rate * 30)) i).useful_length := by
  have hs : 0 < sample_rate * 30 := by omega
  exact ⟨segment_count_eq_ceilDiv n (sample_rate * 30) hs,
    useful_length_sum n (sample_rate * 30) (sample_rate * 5) hs,
    fun j hj => partition_unique n (sample_rate * 30) (sample_rate * 5) j hs hj⟩

theorem C1_segments_partition_witness :
    0 < 1 ∧
    ((segments 65 (1 * 30) (1 * 5)).map Segment.useful_length).sum = 65 ∧
    segment_count 65 (1 * 30) = 65 ⌈/⌉ (1 * 30) :=
  ⟨by decide, (C1_segments_partition 65 1 (by decide)).2.1,
    (C1_segments_partition 65 1 (by decide)).1⟩

/-- C3: concrete scenario: stereo canonical PCM at sample_rate 44100 with
3969000 samples per channel gives exactly 3 segments with process windows
[0, 1543500), [1102500, 2866500) of length 1764000, [2425500, 3969000),
and useful data (relative start, length) of (0, 1323000), (220500,
1323000), (220500, 1323000) — i.e. absolute useful regions [0, 1323000),
[1323000, 2646000), [2646000, 3969000). -/
theorem C3_concrete_90s_stereo :
    segment_count 3969000 (44100 * 30) = 3 ∧
    segments 3969000 (44100 * 30) (44100 * 5) =
      [⟨0, 1543500, 0, 1323000⟩,
       ⟨1102500, 1764000, 220500, 1323000⟩,
       ⟨2425500, 1543500, 220500, 1323000⟩] := by
  exact ⟨rfl, rfl⟩

/-- C6: for every segment index i with 0 < i < segment_count the process
window starts at process_start = i*slice_length - extend (and extend ≤
i*slice_length, so the Rust usize subtraction cannot underflow), and for
the last segment process_start + process_length ≤ n, so the extracted
input slice never reaches past the end of the PCM buffer. -/
theorem C6_process_window_bounds (n sample_rate : Nat) (hsr : 0 < sample_rate) :
    (∀ i, 0 < i → i < segment_count n (sample_rate * 30) →
      (mkSegment n (sample_rate * 30) (sample_rate * 5)
          (segment_count n (sample_rate * 30)) i).process_start =
        (sample_rate * 30) * i - sample_rate * 5 ∧
      sample_rate * 5 ≤ (sample_rate * 30) * i) ∧
    (0 < segment_count n (sample_rate * 30) →
      (mkSegment n (sample_rate * 30) (sample_rate * 5)
          (segment_count n (sample_rate * 30))
          (segment_count n (sample_rate * 30) - 1)).process_start +
        (mkSegment n (sample_rate * 30) (sample_rate * 5)
          (segment_count n (sample_rate * 30))
          (segment_count n (sample_rate * 30) - 1)).process_length ≤ n) := by
  constructor
  · intro i hi0 hi
    constructor
    · rw [mkSegment_process_start, if_neg (by omega)]
    · calc sample_rate * 5 ≤ sample_rate * 30 := Nat.mul_le_mul le_rfl (by omega)
        _ ≤ sample_rate * 30 * i := Nat.le_mul_of_pos_right _ (by omega)
  · intro hc
    exact (seg_bounds n (sample_rate * 30) (sample_rate * 5)
      (segment_count n (sample_rate * 30) - 1) (by omega)
      (Nat.mul_le_mul le_rfl (by omega)) (by omega)).2.2.1

theorem C6_process_window_bounds_witness :
    0 < 1 ∧
    (mkSegment 65 (1 * 30) (1 * 5) (segment_count 65 (1 * 30)) 1).process_start =
      1 * 30 * 1 - 1 * 5 ∧
    (mkSegment 65 (1 * 30) (1 * 5) (segment_count 65 (1 * 30))
        (segment_count 65 (1 * 30) - 1)).process_start +
      (mkSegment 65 (1 * 30) (1 * 5) (segment_count 65 (1 * 30))
        (segment_count 65 (1 * 30) - 1)).process_length ≤ 65 :=
  ⟨by decide,
    ((C6_process_window_bounds 65 1 (by decide)).1 1 (by decide) (by decide)).1,
    (C6_process_window_bounds 65 1 (by decide)).2 (by decide)⟩

/-! ### Identity inference reconstructs the input (claim C2) -/

lemma sliceChecked_eq_some {α : Type} (data : List α) (b l : Nat)
    (h : b + l ≤ data.length) :
    sliceChecked data b l = some ((data.drop b).take l) := by
  rw [sliceChecked, if_pos h]

lemma sliceChecked_comp {α : Type} (samples : List α) (bb ll b l : Nat)
    (h1 : bb + ll ≤ samples.length) (h2 : b + l ≤ ll) :
    sliceChecked ((samples.drop bb).take ll) b l =
      some ((samples.drop (bb + b)).take l) := by
  have hlen : ((samples.drop bb).take ll).length = ll := by
    rw [List.length_take, List.length_drop]
    omega
  rw [sliceChecked, if_pos (by omega)]
  congr 1
  rw [List.drop_take, List.drop_drop, List.take_take]
  congr 1
  omega

lemma mapM_const_some {β γ : Type} (l : List β) (x : γ) :
    l.mapM (fun _ => some x) = some (List.replicate l.length x) := by
  induction l with
  | nil => rfl
  | cons a t ih =>
    rw [List.mapM_cons, ih]
    rfl

lemma processSegment_identity {α : Type} (samples : List α) (nbc oc i : Nat)
    (n slice ext : Nat) (hs : 0 < slice) (hext : ext ≤ slice)
    (hn : samples.length = n * nbc) (hi : i < segment_count n slice) :
    processSegment samples nbc oc (fun input _ => input)
        (List.replicate oc (samples.take (slice * i * nbc)))
        (mkSegment n slice ext (segment_count n slice) i) =
      some (List.replicate oc
        (samples.take ((slice * i +
          (mkSegment n slice ext (segment_count n slice) i).useful_length) * nbc))) := by
  obtain ⟨hpsus, htrim, hppl, hcoul⟩ := seg_bounds n slice ext i hs hext hi
  set seg := mkSegment n slice ext (segment_count n slice) i with hseg
  have hin : seg.process_start * nbc + seg.process_length * nbc ≤ samples.length := by
    rw [hn]
    calc seg.process_start * nbc + seg.process_length * nbc
        = (seg.process_start + seg.process_length) * nbc := by ring
      _ ≤ n * nbc := Nat.mul_le_mul_right nbc hppl
  have htr : trimOutput seg nbc ((samples.drop (seg.process_start * nbc)).take
      (seg.process_length * nbc)) =
      some ((samples.drop (slice * i * nbc)).take (seg.useful_length * nbc)) := by
    rw [trimOutput]
    rw [sliceChecked_comp samples _ _ _ _ hin (by
      calc seg.useful_start * nbc + seg.useful_length * nbc
          = (seg.useful_start + seg.useful_length) * nbc := by ring
        _ ≤ seg.process_length * nbc := Nat.mul_le_mul_right nbc htrim)]
    have harg : seg.process_start * nbc + seg.useful_start * nbc = slice * i * nbc :=
      calc seg.process_start * nbc + seg.useful_start * nbc
          = (seg.process_start + seg.useful_start) * nbc := by ring
        _ = slice * i * nbc := by rw [hpsus]
    rw [harg]
  simp only [processSegment, Option.bind_eq_bind]
  rw [sliceChecked_eq_some samples _ _ hin, Option.some_bind]
  simp only [htr]
  rw [mapM_const_some, List.length_range, Option.some_bind]
  rw [List.zipWith_replicate, Nat.min_self]
  rw [Nat.add_mul, List.take_add]

lemma split_loop_identity {α : Type} (samples : List α) (nbc oc : Nat)
    (n slice ext : Nat) (hs : 0 < slice) (hext : ext ≤ slice)
    (hn : samples.length = n * nbc) :
    ∀ k, k ≤ segment_count n slice →
      ((List.range k).map (mkSegment n slice ext (segment_count n slice))).foldlM
          (processSegment samples nbc oc (fun input _ => input))
          (List.replicate oc []) =
        some (List.replicate oc (samples.take (min (slice * k) n * nbc))) := by
  intro k
  induction k with
  | zero => intro _; simp
  | succ k ih =>
    intro hk1
    have hk : k < segment_count n slice := by omega
    have hksucc : slice * (k + 1) = slice * k + slice := by ring
    have hmin : min (slice * k) n = slice * k :=
      Nat.min_eq_left (le_of_lt ((lt_segment_count_iff n slice k hs).mp hk))
    have hfin : slice * k + (mkSegment n slice ext (segment_count n slice) k).useful_length
        = min (slice * (k + 1)) n := by
      rw [mkSegment_useful_length]
      by_cases hl : k = segment_count n slice - 1
      · rw [if_pos hl]
        have h1 : n ≤ slice * (k + 1) := by
          have h2 := le_mul_segment_count n slice hs
          have h3 : k + 1 = segment_count n slice := by omega
          rw [h3]
          exact h2
        have hco : slice * k < n := (lt_segment_count_iff n slice k hs).mp hk
        omega
      · rw [if_neg hl]
        have h1 : slice * (k + 1) < n := (lt_segment_count_iff n slice (k + 1) hs).mp (by omega)
        omega
    rw [List.range_succ, List.map_append, List.foldlM_append, ih (by omega)]
    simp only [List.map_cons, List.map_nil, List.foldlM_cons, List.foldlM_nil,
      Option.bind_eq_bind, Option.some_bind, hmin]
    rw [processSegment_identity samples nbc oc k n slice ext hs hext hn hk]
    simp only [Option.some_bind, Option.pure_def, hfin]

/-- C2: if the inference function is the identity (each requested output
tensor equals the input tensor), then for every channel-aligned input PCM
(any number of samples per channel, including fewer than slice_length and
exactly divisible by slice_length), `split_pcm_audio` succeeds and every
track buffer is element-for-element equal to the input PCM, hence has
exactly N samples per channel. -/
theorem C2_identity_inference_roundtrip {α : Type} (samples : List α)
    (nb_channels sample_rate output_count : Nat)
    (_hch : 0 < nb_channels) (hsr : 0 < sample_rate)
    (hdvd : nb_channels ∣ samples.length) :
    split_pcm_audio samples nb_channels sample_rate output_count (fun input _ => input) =
      some (List.replicate output_count samples) := by
  have hs : 0 < sample_rate * 30 := by omega
  have hext : sample_rate * 5 ≤ sample_rate * 30 := Nat.mul_le_mul le_rfl (by omega)
  have hn : samples.length = (samples.length / nb_channels) * nb_channels :=
    (Nat.div_mul_cancel hdvd).symm
  simp only [split_pcm_audio, segments]
  rw [split_loop_identity samples nb_channels output_count
      (samples.length / nb_channels) (sample_rate * 30) (sample_rate * 5) hs hext hn
      (segment_count (samples.length / nb_channels) (sample_rate * 30)) le_rfl]
  rw [Nat.min_eq_right (le_mul_segment_count _ _ hs), ← hn, List.take_length]

theorem C2_identity_inference_roundtrip_witness :
    (0:Nat) < 2 ∧ (0:Nat) < 1 ∧ 2 ∣ ([10, 11, 12, 13] : List Nat).length ∧
    split_pcm_audio ([10, 11, 12, 13] : List Nat) 2 1 2 (fun input _ => input) =
      some [[10, 11, 12, 13], [10, 11, 12, 13]] :=
  ⟨by decide, by decide, by decide,
    C2_identity_inference_roundtrip ([10, 11, 12, 13] : List Nat) 2 1 2
      (by decide) (by decide) (by decide)⟩

/-! ### Model of src/encode.rs -/

/-- An AVRational time base, as in rsmpeg. -/
structure AVRational where
  num : Int
  den : Int
deriving DecidableEq

/-- The part of `AudioParameters` (src/utils.rs lines 45-49) read by the
encoder setup: the source stream's `time_base`, and `codecpar.sample_rate`
from the codec parameters. -/
structure AudioParameters where
  time_base : AVRational
  codecpar_sample_rate : Int
deriving DecidableEq

/-- The encode context state set up by `init_encode_context`; only the
time_base is algorithmically relevant here. -/
structure AVCodecContextModel where
  time_base : AVRational
deriving DecidableEq

/-- Model of `init_encode_context` (src/encode.rs lines 37-56): the encode
context's time_base is set to num 1 / den codecpar.sample_rate, not to
`audio_parameters.time_base`. -/
def init_encode_context (audio_parameters : AudioParameters) : AVCodecContextModel :=
  { time_base := { num := 1, den := audio_parameters.codecpar_sample_rate } }

/-- Rust usize subtraction `a - b`: panics on underflow (none). -/
def usizeSub (a b : Nat) : Option Nat :=
  if b ≤ a then some (a - b) else none

/-- Rust usize division `a / b`: panics on division by zero (none). -/
def usizeDiv (a b : Nat) : Option Nat :=
  if b = 0 then none else some (a / b)

/-- Abstract model of the SwrContext collaborator of `encode_pcm_data`:
converting a frame of k input samples yields a new internal state and the
number of output samples placed in the output frame; flushing yields the
buffered remainder's sample count. -/
structure Resampler (σ : Type) where
  init : σ
  convert : σ → Nat → σ × Nat
  flush : σ → Nat

/-- Abstract model of the encoder collaborator: sending a frame
(pts, nb_samples) yields a new state and emitted packets; flushing yields
the remaining packets. -/
structure Encoder (ε π : Type) where
  init : ε
  send_frame : ε → Int × Nat → ε × List π
  flush : ε → List π

/-- Mutable state of the batching loop of `encode_pcm_data`
(src/encode.rs lines 158-190), plus the histories we reason about:
frames sent to the encoder as (pts, nb_samples) pairs, packets as
received, and packets as written (after rescale_ts). -/
structure EncodeState (σ ε π : Type) where
  resampler : σ
  encoder : ε
  pts : Int
  sample_offset : Nat
  sent_frames : List (Int × Nat)
  raw_packets : List π
  written_packets : List π

/-- One iteration of the batching loop of `encode_pcm_data`
(src/encode.rs lines 161-190): take the next chunk of
min(samples_per_batch, num_samples - sample_offset) samples, resample it,
stamp the output frame with the running pts, send it to the encoder only
when non-empty, and advance pts by the output frame's own nb_samples. -/
def encodeBatchStep {σ ε π : Type} (R : Resampler σ) (E : Encoder ε π)
    (rescale_ts : AVRational → AVRational → π → π) (enc_tb stream_tb : AVRational)
    (num_samples samples_per_batch : Nat)
    (st : EncodeState σ ε π) (_i : Nat) : EncodeState σ ε π :=
  let process_samples := min samples_per_batch (num_samples - st.sample_offset)
  let conv := R.convert st.resampler process_samples
  let nb := conv.2
  if 0 < nb then
    { resampler := conv.1,
      encoder := (E.send_frame st.encoder (st.pts, nb)).1,
      pts := st.pts + (nb : Int),
      sample_offset := st.sample_offset + process_samples,
      sent_frames := st.sent_frames ++ [(st.pts, nb)],
      raw_packets := st.raw_packets ++ (E.send_frame st.encoder (st.pts, nb)).2,
      written_packets := st.written_packets ++
        ((E.send_frame st.encoder (st.pts, nb)).2).map (rescale_ts enc_tb stream_tb) }
  else
    { st with
      resampler := conv.1,
      pts := st.pts + (nb : Int),
      sample_offset := st.sample_offset + process_samples }

/-- The record of observable effects of one `encode_pcm_data` call. -/
structure EncodeOutput (π : Type) where
  enc_time_base : AVRational
  stream_time_base : AVRational
  sent_frames : List (Int × Nat)
  raw_packets : List π
  written_packets : List π
  header_written : Bool
  trailer_written : Bool

/-- The non-panicking tail of `encode_pcm_data`: run the batching loop,
flush the resampler (stamping any remainder frame with the current pts
and sending it only when non-empty, src/encode.rs lines 192-210), flush
the encoder (src/encode.rs line 212), and write the trailer. Every raw
packet is rescaled from the encode context's time_base to the output
stream's time_base before being written, as in `write_frame`
(src/encode.rs lines 75-81); the stream's time_base is
`audio_parameters.time_base` (src/encode.rs line 143). -/
def encodeFinish {σ ε π : Type} (audio_parameters : AudioParameters)
    (R : Resampler σ) (E : Encoder ε π)
    (rescale_ts : AVRational → AVRational → π → π) (st1 : EncodeState σ ε π) :
    EncodeOutput π :=
  let enc_tb := (init_encode_context audio_parameters).time_base
  let stream_tb := audio_parameters.time_base
  let nbf := R.flush st1.resampler
  let st2 :=
    if 0 < nbf then
      { st1 with
        encoder := (E.send_frame st1.encoder (st1.pts, nbf)).1,
        sent_frames := st1.sent_frames ++ [(st1.pts, nbf)],
        raw_packets := st1.raw_packets ++ (E.send_frame st1.encoder (st1.pts, nbf)).2,
        written_packets := st1.written_packets ++
          ((E.send_frame st1.encoder (st1.pts, nbf)).2).map (rescale_ts enc_tb stream_tb) }
    else st1
  let flush_packets := E.flush st2.encoder
  { enc_time_base := enc_tb, stream_time_base := stream_tb,
    sent_frames := st2.sent_frames,
    raw_packets := st2.raw_packets ++ flush_packets,
    written_packets := st2.written_packets ++
      flush_packets.map (rescale_ts enc_tb stream_tb),
    header_written := true, trailer_written := true }

/-- The initial state of the batching loop: pts starts at 0 and nothing
has been sent or written yet. -/
def encodeInit {σ ε π : Type} (R : Resampler σ) (E : Encoder ε π) : EncodeState σ ε π :=
  { resampler := R.init, encoder := E.init, pts := 0, sample_offset := 0,
    sent_frames := [], raw_packets := [], written_packets := [] }

/-- The whole non-panicking part of `encode_pcm_data`: run the batching
loop over `num_batches` batches, then the resampler flush, the encoder
flush and the trailer. -/
def encodeRun {σ ε π : Type} (num_samples num_batches samples_per_batch : Nat)
    (audio_parameters : AudioParameters) (R : Resampler σ) (E : Encoder ε π)
    (rescale_ts : AVRational → AVRational → π → π) : EncodeOutput π :=
  encodeFinish audio_parameters R E rescale_ts
    ((List.range num_batches).foldl
      (encodeBatchStep R E rescale_ts (init_encode_context audio_parameters).time_base
        audio_parameters.time_base num_samples samples_per_batch)
      (encodeInit R E))

/-- Model of `encode_pcm_data` (src/encode.rs lines 111-220): compute
`num_samples = pcm_data.len() / sample_size` and
`num_batches = (num_samples + samples_per_batch - 1) / samples_per_batch`
with Rust usize arithmetic (so a zero `sample_size` or a zero
`frame_size` panics), then run the batching loop and flushes. -/
def encode_pcm_data {σ ε π : Type} (pcm_data_len sample_size : Nat)
    (audio_parameters : AudioParameters) (frame_size : Nat)
    (R : Resampler σ) (E : Encoder ε π)
    (rescale_ts : AVRational → AVRational → π → π) : Option (EncodeOutput π) := do
  let samples_per_batch := frame_size
  let num_samples ← usizeDiv pcm_data_len sample_size
  let spb_pred ← usizeSub samples_per_batch 1
  let num_batches ← usizeDiv (num_samples + spb_pred) samples_per_batch
  some (encodeRun num_samples num_batches samples_per_batch audio_parameters R E rescale_ts)

/-! ### Timestamp bookkeeping invariants (claims C4, C5) -/

/-- A frame list is pts-chained when every frame's pts equals the total
of the sample counts of the frames before it. -/
def ptsChain (l : List (Int × Nat)) : Prop :=
  ∀ k (hk : k < l.length),
    (l.get ⟨k, hk⟩).1 = ((l.take k).map (fun f => (f.2 : Int))).sum

lemma ptsChain_nil : ptsChain [] := by
  intro k hk
  simp at hk

lemma ptsChain_append (l : List (Int × Nat)) (p : Int) (nb : Nat)
    (hc : ptsChain l) (hp : p = (l.map (fun f => (f.2 : Int))).sum) :
    ptsChain (l ++ [(p, nb)]) := by
  intro k hk
  rw [List.length_append, List.length_singleton] at hk
  by_cases hkl : k < l.length
  · rw [List.get_append k hkl, List.take_append_of_le_length (by omega)]
    exact hc k hkl
  · have hke : k = l.length := by omega
    subst hke
    rw [List.take_append_of_le_length le_rfl, List.take_length]
    simp [hp]

lemma ptsChain_succ (l : List (Int × Nat)) (hc : ptsChain l)
    (hpos : ∀ f ∈ l, 0 < f.2) (k : Nat) (hk : k + 1 < l.length) :
    (l.get ⟨k + 1, hk⟩).1 = (l.get ⟨k, Nat.lt_of_succ_lt hk⟩).1 +
      ((l.get ⟨k, Nat.lt_of_succ_lt hk⟩).2 : Int) ∧
    (l.get ⟨k, Nat.lt_of_succ_lt hk⟩).1 < (l.get ⟨k + 1, hk⟩).1 := by
  have hkl : k < l.length := Nat.lt_of_succ_lt hk
  have hck := hc k hkl
  have hck1 := hc (k + 1) hk
  have htake : List.take (k + 1) l = (List.take k l).concat (l.get ⟨k, hkl⟩) := by
    rw [List.get_eq_getElem]
    exact (List.take_concat_get l k hkl).symm
  rw [htake, List.concat_eq_append, List.map_append, List.sum_append] at hck1
  simp only [List.map_cons, List.map_nil, List.sum_cons, List.sum_nil, add_zero] at hck1
  have hpos2 : 0 < (l.get ⟨k, hkl⟩).2 := hpos _ (List.get_mem l k hkl)
  rw [hck1, ← hck]
  exact ⟨rfl, by omega⟩

/-- The loop invariant of `encode_pcm_data`: the running pts equals the
total of all emitted sample counts, the sent frames are pts-chained and
non-empty, and the written packet history is the rescaled raw packet
history. -/
def encInv {σ ε π : Type} (rescale : π → π) (st : EncodeState σ ε π) : Prop :=
  st.pts = (st.sent_frames.map (fun f => (f.2 : Int))).sum ∧
  ptsChain st.sent_frames ∧
  (∀ f ∈ st.sent_frames, 0 < f.2) ∧
  st.written_packets = st.raw_packets.map rescale

lemma encodeBatchStep_inv {σ ε π : Type} (R : Resampler σ) (E : Encoder ε π)
    (rescale_ts : AVRational → AVRational → π → π) (enc_tb stream_tb : AVRational)
    (ns spb : Nat) (st : EncodeState σ ε π) (i : Nat)
    (h : encInv (rescale_ts enc_tb stream_tb) st) :
    encInv (rescale_ts enc_tb stream_tb)
      (encodeBatchStep R E rescale_ts enc_tb stream_tb ns spb st i) := by
  obtain ⟨h1, h2, h3, h4⟩ := h
  simp only [encodeBatchStep]
  by_cases hnb : 0 < (R.convert st.resampler (min spb (ns - st.sample_offset))).2
  · rw [if_pos hnb]
    refine ⟨?_, ?_, ?_, ?_⟩
    · dsimp only
      simp only [List.map_append, List.map_cons, List.map_nil, List.sum_append,
        List.sum_cons, List.sum_nil, add_zero]
      rw [h1]
    · exact ptsChain_append _ _ _ h2 h1
    · intro f hf
      rcases List.mem_append.mp hf with hfl | hfr
      · exact h3 f hfl
      · rw [List.mem_singleton.mp hfr]
        exact hnb
    · dsimp only
      rw [List.map_append, h4]
  · rw [if_neg hnb]
    have hz : (R.convert st.resampler (min spb (ns - st.sample_offset))).2 = 0 := by omega
    refine ⟨?_, h2, h3, h4⟩
    dsimp only
    rw [hz, h1]
    simp

lemma encodeLoop_inv {σ ε π : Type} (R : Resampler σ) (E : Encoder ε π)
    (rescale_ts : AVRational → AVRational → π → π) (enc_tb stream_tb : AVRational)
    (ns spb : Nat) (l : List Nat) (st : EncodeState σ ε π)
    (h : encInv (rescale_ts enc_tb stream_tb) st) :
    encInv (rescale_ts enc_tb stream_tb)
      (l.foldl (encodeBatchStep R E rescale_ts enc_tb stream_tb ns spb) st) := by
  induction l generalizing st with
  | nil => exact h
  | cons a t ih =>
    exact ih _ (encodeBatchStep_inv R E rescale_ts enc_tb stream_tb ns spb st a h)

lemma encodeFinish_spec {σ ε π : Type} (p : AudioParameters)
    (R : Resampler σ) (E : Encoder ε π) (rt : AVRational → AVRational → π → π)
    (st1 : EncodeState σ ε π)
    (h : encInv (rt { num := 1, den := p.codecpar_sample_rate } p.time_base) st1) :
    (encodeFinish p R E rt st1).enc_time_base =
      { num := 1, den := p.codecpar_sample_rate } ∧
    (encodeFinish p R E rt st1).stream_time_base = p.time_base ∧
    (encodeFinish p R E rt st1).written_packets =
      (encodeFinish p R E rt st1).raw_packets.map
        (rt (encodeFinish p R E rt st1).enc_time_base
            (encodeFinish p R E rt st1).stream_time_base) ∧
    ptsChain (encodeFinish p R E rt st1).sent_frames ∧
    (∀ f ∈ (encodeFinish p R E rt st1).sent_frames, 0 < f.2) ∧
    (encodeFinish p R E rt st1).header_written = true ∧
    (encodeFinish p R E rt st1).trailer_written = true := by
  obtain ⟨i1, i2, i3, i4⟩ := h
  simp only [encodeFinish, init_encode_context]
  by_cases hf : 0 < R.flush st1.resampler
  · simp only [if_pos hf]
    refine ⟨by trivial, by trivial, ?_, ?_, ?_, by trivial, by trivial⟩
    · dsimp only
      rw [List.map_append, List.map_append, i4]
    · exact ptsChain_append _ _ _ i2 i1
    · intro f hf2
      rcases List.mem_append.mp hf2 with hfl | hfr
      · exact i3 f hfl
      · rw [List.mem_singleton.mp hfr]
        exact hf
  · simp only [if_neg hf]
    refine ⟨by trivial, by trivial, ?_, i2, i3, by trivial, by trivial⟩
    dsimp only
    rw [List.map_append, i4]

lemma encInv_init {σ ε π : Type} (R : Resampler σ) (E : Encoder ε π)
    (rescale : π → π) : encInv rescale (encodeInit R E) :=
  ⟨by simp [encodeInit], by intro k hk; simp [encodeInit] at hk, by simp [encodeInit],
    by simp [encodeInit]⟩

lemma encodeRun_spec {σ ε π : Type} (ns nbatch spb : Nat) (p : AudioParameters)
    (R : Resampler σ) (E : Encoder ε π) (rt : AVRational → AVRational → π → π) :
    (encodeRun ns nbatch spb p R E rt).enc_time_base =
      { num := 1, den := p.codecpar_sample_rate } ∧
    (encodeRun ns nbatch spb p R E rt).stream_time_base = p.time_base ∧
    (encodeRun ns nbatch spb p R E rt).written_packets =
      (encodeRun ns nbatch spb p R E rt).raw_packets.map
        (rt (encodeRun ns nbatch spb p R E rt).enc_time_base
            (encodeRun ns nbatch spb p R E rt).stream_time_base) ∧
    ptsChain (encodeRun ns nbatch spb p R E rt).sent_frames ∧
    (∀ f ∈ (encodeRun ns nbatch spb p R E rt).sent_frames, 0 < f.2) ∧
    (encodeRun ns nbatch spb p R E rt).header_written = true ∧
    (encodeRun ns nbatch spb p R E rt).trailer_written = true := by
  unfold encodeRun
  exact encodeFinish_spec p R E rt _
    (encodeLoop_inv R E rt _ _ ns spb (List.range nbatch) (encodeInit R E)
      (encInv_init R E _))

lemma encode_pcm_data_some {σ ε π : Type} (pcm_data_len sample_size frame_size : Nat)
    (p : AudioParameters) (R : Resampler σ) (E : Encoder ε π)
    (rt : AVRational → AVRational → π → π) (out : EncodeOutput π)
    (h : encode_pcm_data pcm_data_len sample_size p frame_size R E rt = some out) :
    ∃ ns nbatch, out = encodeRun ns nbatch frame_size p R E rt := by
  simp only [encode_pcm_data, Option.bind_eq_bind, Option.bind_eq_some] at h
  obtain ⟨a, _, b, _, c, _, hout⟩ := h
  exact ⟨a, c, (Option.some_inj.mp hout).symm⟩

/-- A pass-through resampler: every chunk is emitted in full and nothing
is buffered. Used to instantiate theorems at concrete inputs. -/
def passResampler : Resampler Unit :=
  { init := (), convert := fun s k => (s, k), flush := fun _ => 0 }

/-- An encoder that never emits packets. Used to instantiate theorems at
concrete inputs. -/
def nullEncoder : Encoder Unit Nat :=
  { init := (), send_frame := fun s _ => (s, []), flush := fun _ => [] }

/-- Sample audio parameters used to instantiate theorems: a 90000 tick
source time_base and a 44100 Hz codec sample rate. -/
def apExample : AudioParameters :=
  { time_base := { num := 1, den := 90000 }, codecpar_sample_rate := 44100 }

/-- C4: in `encode_pcm_data` every frame sent to the encoder carries a
presentation timestamp equal to the running total of resampled samples
emitted before it (pts starts at 0 and advances by each output frame's
own nb_samples, the resampler-flush frame included), every sent frame is
non-empty, and successive sent frames' timestamps are strictly
increasing, each by the earlier frame's own emitted sample count. -/
theorem C4_pts_running_total {σ ε π : Type} (pcm_data_len sample_size frame_size : Nat)
    (audio_parameters : AudioParameters) (R : Resampler σ) (E : Encoder ε π)
    (rescale_ts : AVRational → AVRational → π → π) (out : EncodeOutput π)
    (h : encode_pcm_data pcm_data_len sample_size audio_parameters frame_size R E
        rescale_ts = some out) :
    ptsChain out.sent_frames ∧
    (∀ f ∈ out.sent_frames, 0 < f.2) ∧
    ∀ k (hk : k + 1 < out.sent_frames.length),
      (out.sent_frames.get ⟨k + 1, hk⟩).1 =
        (out.sent_frames.get ⟨k, Nat.lt_of_succ_lt hk⟩).1 +
          ((out.sent_frames.get ⟨k, Nat.lt_of_succ_lt hk⟩).2 : Int) ∧
      (out.sent_frames.get ⟨k, Nat.lt_of_succ_lt hk⟩).1 <
        (out.sent_frames.get ⟨k + 1, hk⟩).1 := by
  obtain ⟨ns, nbatch, rfl⟩ :=
    encode_pcm_data_some pcm_data_len sample_size frame_size audio_parameters R E
      rescale_ts out h
  obtain ⟨_, _, _, h4, h5, _, _⟩ :=
    encodeRun_spec ns nbatch frame_size audio_parameters R E rescale_ts
  exact ⟨h4, h5, fun k hk => ptsChain_succ _ h4 h5 k hk⟩

theorem C4_pts_running_total_witness :
    encode_pcm_data 8 4 apExample 1 passResampler nullEncoder (fun _ _ q => q) =
      some (encodeRun 2 2 1 apExample passResampler nullEncoder (fun _ _ q => q)) ∧
    ptsChain (encodeRun 2 2 1 apExample passResampler nullEncoder
      (fun _ _ q => q)).sent_frames :=
  ⟨rfl, (C4_pts_running_total 8 4 1 apExample passResampler nullEncoder
    (fun _ _ q => q) _ rfl).1⟩

/-- C5: the encode context's time_base is set to 1 / codecpar.sample_rate
(independently of the source time_base, and different from it whenever
the source time_base is not itself 1 / sample_rate), the output stream's
time_base is set from the source parameters' time_base, and the written
packet sequence is exactly the received packet sequence rescaled from
the encode context's time_base to the output stream's time_base. -/
theorem C5_time_base_selection {σ ε π : Type} (pcm_data_len sample_size frame_size : Nat)
    (audio_parameters : AudioParameters) (R : Resampler σ) (E : Encoder ε π)
    (rescale_ts : AVRational → AVRational → π → π) (out : EncodeOutput π)
    (h : encode_pcm_data pcm_data_len sample_size audio_parameters frame_size R E
        rescale_ts = some out) :
    out.enc_time_base = { num := 1, den := audio_parameters.codecpar_sample_rate } ∧
    (init_encode_context audio_parameters).time_base =
      { num := 1, den := audio_parameters.codecpar_sample_rate } ∧
    (∀ tb : AVRational,
      init_encode_context { audio_parameters with time_base := tb } =
        init_encode_context audio_parameters) ∧
    (audio_parameters.time_base ≠
        { num := 1, den := audio_parameters.codecpar_sample_rate } →
      out.enc_time_base ≠ audio_parameters.time_base) ∧
    out.stream_time_base = audio_parameters.time_base ∧
    out.written_packets = out.raw_packets.map
      (rescale_ts out.enc_time_base out.stream_time_base) := by
  obtain ⟨ns, nbatch, rfl⟩ :=
    encode_pcm_data_some pcm_data_len sample_size frame_size audio_parameters R E
      rescale_ts out h
  obtain ⟨h1, h2, h3, _, _, _, _⟩ :=
    encodeRun_spec ns nbatch frame_size audio_parameters R E rescale_ts
  refine ⟨h1, rfl, fun tb => rfl, ?_, h2, h3⟩
  intro hne hcontra
  rw [h1] at hcontra
  exact hne hcontra.symm

theorem C5_time_base_selection_witness :
    encode_pcm_data 8 4 apExample 2 passResampler nullEncoder (fun _ _ q => q) =
      some (encodeRun 2 1 2 apExample passResampler nullEncoder (fun _ _ q => q)) ∧
    (encodeRun 2 1 2 apExample passResampler nullEncoder
      (fun _ _ q => q)).enc_time_base =
      { num := 1, den := apExample.codecpar_sample_rate } ∧
    (encodeRun 2 1 2 apExample passResampler nullEncoder
      (fun _ _ q => q)).stream_time_base = apExample.time_base :=
  ⟨rfl,
   (C5_time_base_selection 8 4 2 apExample passResampler nullEncoder
     (fun _ _ q => q) _ rfl).1,
   (C5_time_base_selection 8 4 2 apExample passResampler nullEncoder
     (fun _ _ q => q) _ rfl).2.2.2.2.1⟩

/-- C7: encoding an empty track (empty pcm_data, M = 0) succeeds and
produces a valid container with a written header and trailer but no media
packets: the batching loop has zero batches, the resampler flush (which
emits nothing when nothing was fed, hypothesis hR) produces an empty
frame that is not sent to the encoder, and the encoder flush (which
emits no packets when no frame was sent, hypothesis hE) writes nothing. -/
theorem C7_empty_track_valid_container {σ ε π : Type} (sample_size frame_size : Nat)
    (audio_parameters : AudioParameters) (R : Resampler σ) (E : Encoder ε π)
    (rescale_ts : AVRational → AVRational → π → π)
    (hss : 0 < sample_size) (hfs : 0 < frame_size)
    (hR : R.flush R.init = 0) (hE : E.flush E.init = []) :
    encode_pcm_data 0 sample_size audio_parameters frame_size R E rescale_ts =
      some { enc_time_base := { num := 1, den := audio_parameters.codecpar_sample_rate },
             stream_time_base := audio_parameters.time_base,
             sent_frames := [], raw_packets := [], written_packets := [],
             header_written := true, trailer_written := true } := by
  have h1 : usizeDiv 0 sample_size = some 0 := by
    rw [usizeDiv, if_neg (by omega), Nat.zero_div]
  have h2 : usizeSub frame_size 1 = some (frame_size - 1) := by
    rw [usizeSub, if_pos (by omega)]
  have h3 : usizeDiv (0 + (frame_size - 1)) frame_size = some 0 := by
    rw [usizeDiv, if_neg (by omega), Option.some_inj]
    apply Nat.div_eq_of_lt
    omega
  simp only [encode_pcm_data, h1, h2, h3, Option.bind_eq_bind, Option.some_bind]
  rw [Option.some_inj]
  unfold encodeRun
  rw [List.range_zero, List.foldl_nil]
  unfold encodeFinish encodeInit init_encode_context
  simp [hR, hE]

theorem C7_empty_track_valid_container_witness :
    encode_pcm_data 0 4 apExample 3 passResampler nullEncoder (fun _ _ q => q) =
      some { enc_time_base := { num := 1, den := apExample.codecpar_sample_rate },
             stream_time_base := apExample.time_base,
             sent_frames := [], raw_packets := ([] : List Nat), written_packets := [],
             header_written := true, trailer_written := true } :=
  C7_empty_track_valid_container 4 3 apExample passResampler nullEncoder
    (fun _ _ q => q) (by decide) (by decide) rfl rfl

/-- C10: `encode_pcm_data` computes num_batches as
(num_samples + samples_per_batch - 1) / samples_per_batch with
samples_per_batch taken from the encoder frame_size and no zero guard:
whenever frame_size = 0 the usize subtraction underflows (and the
division divides by zero), so the call panics (none) instead of returning
an error, for every otherwise valid input; with a positive frame size
(and non-zero sample size) the call always produces a result, so
samples_per_batch > 0 is an unstated precondition of the encode step. -/
theorem C10_zero_frame_size_panics {σ ε π : Type} (pcm_data_len sample_size : Nat)
    (audio_parameters : AudioParameters) (R : Resampler σ) (E : Encoder ε π)
    (rescale_ts : AVRational → AVRational → π → π) :
    encode_pcm_data pcm_data_len sample_size audio_parameters 0 R E rescale_ts = none ∧
    usizeSub 0 1 = none ∧
    (0 < sample_size → ∀ frame_size, 0 < frame_size →
      (encode_pcm_data pcm_data_len sample_size audio_parameters frame_size R E
        rescale_ts).isSome = true) := by
  refine ⟨?_, rfl, ?_⟩
  · simp only [encode_pcm_data, Option.bind_eq_bind]
    rcases hd : usizeDiv pcm_data_len sample_size with _ | ns
    · rfl
    · rw [Option.some_bind]
      rfl
  · intro hss fs hfs
    have h1 : usizeDiv pcm_data_len sample_size =
        some (pcm_data_len / sample_size) := by
      rw [usizeDiv, if_neg (by omega)]
    have h2 : usizeSub fs 1 = some (fs - 1) := by
      rw [usizeSub, if_pos (by omega)]
    have h3 : usizeDiv (pcm_data_len / sample_size + (fs - 1)) fs =
        some ((pcm_data_len / sample_size + (fs - 1)) / fs) := by
      rw [usizeDiv, if_neg (by omega)]
    simp only [encode_pcm_data, h1, h2, h3, Option.bind_eq_bind, Option.some_bind]
    rfl

theorem C10_zero_frame_size_panics_witness :
    encode_pcm_data 8 4 apExample 0 passResampler nullEncoder (fun _ _ q => q) = none ∧
    (encode_pcm_data 8 4 apExample 2 passResampler nullEncoder
      (fun _ _ q => q)).isSome = true :=
  ⟨(C10_zero_frame_size_panics 8 4 apExample passResampler nullEncoder
      (fun _ _ q => q)).1,
   (C10_zero_frame_size_panics 8 4 apExample passResampler nullEncoder
      (fun _ _ q => q)).2.2 (by decide) 2 (by decide)⟩

/-- C9: the segmenter trims each inference output tensor at
[useful_start*nb_channels, (useful_start + useful_length)*nb_channels)
with no validation of the tensor's length: for every segment of a run
and every output tensor holding s samples per channel, the trim (and
hence the per-track append) stays in bounds if and only if
useful_start + useful_length ≤ s; when the tensor is shorter the slice
is out of bounds and the result is the panic value none — there is no
checked ModelError path, so the length condition is a precondition on
the inference function. -/
theorem C9_trim_in_bounds_iff {α : Type} (n sample_rate nb_channels s : Nat)
    (hch : 0 < nb_channels) (tensor : List α)
    (hlen : tensor.length = s * nb_channels) :
    ∀ seg ∈ segments n (sample_rate * 30) (sample_rate * 5),
      ((trimOutput seg nb_channels tensor).isSome = true ↔
        seg.useful_start + seg.useful_length ≤ s) ∧
      (s < seg.useful_start + seg.useful_length →
        trimOutput seg nb_channels tensor = none) := by
  intro seg _
  have hiff : (trimOutput seg nb_channels tensor).isSome = true ↔
      seg.useful_start + seg.useful_length ≤ s := by
    rw [trimOutput, sliceChecked]
    by_cases hb : seg.useful_start * nb_channels + seg.useful_length * nb_channels ≤
        tensor.length
    · rw [if_pos hb]
      rw [hlen] at hb
      constructor
      · intro _
        have hb2 : (seg.useful_start + seg.useful_length) * nb_channels ≤
            s * nb_channels := by
          calc (seg.useful_start + seg.useful_length) * nb_channels
              = seg.useful_start * nb_channels + seg.useful_length * nb_channels := by
                ring
            _ ≤ s * nb_channels := hb
        exact Nat.le_of_mul_le_mul_right hb2 hch
      · intro _
        rfl
    · rw [if_neg hb]
      constructor
      · intro hcontra
        exact absurd hcontra (by simp)
      · intro hle
        refine absurd ?_ hb
        rw [hlen]
        calc seg.useful_start * nb_channels + seg.useful_length * nb_channels
            = (seg.useful_start + seg.useful_length) * nb_channels := by ring
          _ ≤ s * nb_channels := Nat.mul_le_mul_right nb_channels hle
  refine ⟨hiff, fun hlt => ?_⟩
  have hnot : ¬ (trimOutput seg nb_channels tensor).isSome = true := by
    rw [hiff]
    omega
  rcases htr : trimOutput seg nb_channels tensor with _ | v
  · rfl
  · rw [htr] at hnot
    exact absurd rfl hnot

theorem C9_trim_in_bounds_iff_witness :
    trimOutput ⟨25, 40, 5, 30⟩ 2 ([0, 1, 2, 3, 4, 5] : List Nat) = none :=
  ((C9_trim_in_bounds_iff 65 1 2 3 (by decide) [0, 1, 2, 3, 4, 5] (by decide))
    ⟨25, 40, 5, 30⟩ (by decide)).2 (by decide)

/-! ### Model of src/decode.rs and the write_frame error flow (claim C8) -/

/-- The rsmpeg error values relevant to the decode and encode loops: the
four benign drain/flush sentinels, and every other error abstracted by an
integer code. -/
inductive RsmpegError where
  | DecoderDrainError : RsmpegError
  | DecoderFlushedError : RsmpegError
  | EncoderDrainError : RsmpegError
  | EncoderFlushedError : RsmpegError
  | OtherError : Int → RsmpegError
deriving DecidableEq

/-- The receive_frame draining loop of `decode_resample_save`
(src/decode.rs lines 40-45): frames are collected until the first error;
DecoderDrainError and DecoderFlushedError break the loop normally, any
other error aborts the call. The argument is the stream of receive_frame
results the decoder produces. -/
def receiveFrameLoop {F : Type} : List (Except RsmpegError F) → Except RsmpegError (List F)
  | [] => Except.ok []
  | Except.ok f :: rest =>
    match receiveFrameLoop rest with
    | Except.ok fs => Except.ok (f :: fs)
    | Except.error e => Except.error e
  | Except.error RsmpegError.DecoderDrainError :: _ => Except.ok []
  | Except.error RsmpegError.DecoderFlushedError :: _ => Except.ok []
  | Except.error e :: _ => Except.error e

/-- Model of `decode_resample_save` (src/decode.rs lines 30-71): send the
packet (any send_packet error aborts), then drain decoded frames. The
returned frames are the ones whose converted bytes the real code appends
to pcm_data. -/
def decode_resample_save {F : Type} (send_packet : Except RsmpegError Unit)
    (receive_frames : List (Except RsmpegError F)) : Except RsmpegError (List F) :=
  match send_packet with
  | Except.error e => Except.error e
  | Except.ok _ => receiveFrameLoop receive_frames

/-- The receive_packet draining loop of `write_frame` (src/encode.rs
lines 67-74): packets are collected until the first error;
EncoderDrainError and EncoderFlushedError break the loop normally, any
other error aborts the call. -/
def receivePacketLoop {P : Type} : List (Except RsmpegError P) → Except RsmpegError (List P)
  | [] => Except.ok []
  | Except.ok p :: rest =>
    match receivePacketLoop rest with
    | Except.ok ps => Except.ok (p :: ps)
    | Except.error e => Except.error e
  | Except.error RsmpegError.EncoderDrainError :: _ => Except.ok []
  | Except.error RsmpegError.EncoderFlushedError :: _ => Except.ok []
  | Except.error e :: _ => Except.error e

/-- Model of `write_frame` (src/encode.rs lines 58-84): send the frame
(any send_frame error aborts), drain packets, and rescale each received
packet from the encode context's time_base to the stream's time_base
before writing it. -/
def write_frame {P : Type} (send_frame : Except RsmpegError Unit)
    (receive_packets : List (Except RsmpegError P))
    (enc_time_base stream_time_base : AVRational)
    (rescale_ts : AVRational → AVRational → P → P) : Except RsmpegError (List P) :=
  match send_frame with
  | Except.error e => Except.error e
  | Except.ok _ =>
    match receivePacketLoop receive_packets with
    | Except.ok pkts =>
      Except.ok (pkts.map (rescale_ts enc_time_base stream_time_base))
    | Except.error e => Except.error e

lemma receiveFrameLoop_frames_then_error {F : Type} (frames : List F)
    (e : RsmpegError) (rest : List (Except RsmpegError F)) :
    receiveFrameLoop (frames.map Except.ok ++ Except.error e :: rest) =
      if e = RsmpegError.DecoderDrainError ∨ e = RsmpegError.DecoderFlushedError
      then Except.ok frames else Except.error e := by
  induction frames with
  | nil =>
    simp only [List.map_nil, List.nil_append]
    cases e <;> simp [receiveFrameLoop]
  | cons f t ih =>
    simp only [List.map_cons, List.cons_append, receiveFrameLoop, List.append_eq, ih]
    by_cases he : e = RsmpegError.DecoderDrainError ∨ e = RsmpegError.DecoderFlushedError
    · rw [if_pos he, if_pos he]
    · rw [if_neg he, if_neg he]

lemma receivePacketLoop_packets_then_error {P : Type} (pkts : List P)
    (e : RsmpegError) (rest : List (Except RsmpegError P)) :
    receivePacketLoop (pkts.map Except.ok ++ Except.error e :: rest) =
      if e = RsmpegError.EncoderDrainError ∨ e = RsmpegError.EncoderFlushedError
      then Except.ok pkts else Except.error e := by
  induction pkts with
  | nil =>
    simp only [List.map_nil, List.nil_append]
    cases e <;> simp [receivePacketLoop]
  | cons p t ih =>
    simp only [List.map_cons, List.cons_append, receivePacketLoop, List.append_eq, ih]
    by_cases he : e = RsmpegError.EncoderDrainError ∨ e = RsmpegError.EncoderFlushedError
    · rw [if_pos he, if_pos he]
    · rw [if_neg he, if_neg he]

/-- C8: in the decode loop, the two benign signals DecoderDrainError and
DecoderFlushedError from receive_frame terminate the draining loop
normally with Ok, while every other receive_frame error — and any
send_packet error — makes `decode_resample_save` (and hence decode_audio,
which propagates it) return an error; symmetrically in `write_frame`,
EncoderDrainError and EncoderFlushedError from receive_packet terminate
packet draining normally while every other receive_packet error — and any
send_frame error — is returned as a failure. -/
theorem C8_drain_flush_control_flow :
    (∀ (F : Type) (frames : List F) (e : RsmpegError)
        (rest : List (Except RsmpegError F)),
      decode_resample_save (Except.ok ())
          (frames.map Except.ok ++ Except.error e :: rest) =
        if e = RsmpegError.DecoderDrainError ∨ e = RsmpegError.DecoderFlushedError
        then Except.ok frames else Except.error e) ∧
    (∀ (F : Type) (e : RsmpegError) (resps : List (Except RsmpegError F)),
      decode_resample_save (Except.error e) resps = Except.error e) ∧
    (∀ (P : Type) (pkts : List P) (e : RsmpegError)
        (rest : List (Except RsmpegError P)) (enc_tb stream_tb : AVRational)
        (rescale_ts : AVRational → AVRational → P → P),
      write_frame (Except.ok ()) (pkts.map Except.ok ++ Except.error e :: rest)
          enc_tb stream_tb rescale_ts =
        if e = RsmpegError.EncoderDrainError ∨ e = RsmpegError.EncoderFlushedError
        then Except.ok (pkts.map (rescale_ts enc_tb stream_tb))
        else Except.error e) ∧
    (∀ (P : Type) (e : RsmpegError) (resps : List (Except RsmpegError P))
        (enc_tb stream_tb : AVRational)
        (rescale_ts : AVRational → AVRational → P → P),
      write_frame (Except.error e) resps enc_tb stream_tb rescale_ts =
        Except.error e) := by
  refine ⟨?_, ?_, ?_, ?_⟩
  · intro F frames e rest
    exact receiveFrameLoop_frames_then_error frames e rest
  · intro F e resps
    rfl
  · intro P pkts e rest enc_tb stream_tb rescale_ts
    simp only [write_frame]
    rw [receivePacketLoop_packets_then_error]
    by_cases he : e = RsmpegError.EncoderDrainError ∨ e = RsmpegError.EncoderFlushedError
    · rw [if_pos he, if_pos he]
    · rw [if_neg he, if_neg he]
  · intro P e resps enc_tb stream_tb rescale_ts
    rfl
